import Mathlib

/-!
Shallow embedding of the display-configuration helper (src/main.rs):
string primitives modelling the Rust standard-library operations the
program uses, the two parsers, the selector and the reconciler, together
with theorems about the behaviour of each component.
-/

/-- ASCII whitespace, as consulted by trimming. -/
def isWS (c : Char) : Bool := c = ' ' || c = '\t' || c = '\r' || c = '\n'

/-- Trim whitespace from both ends of a character list. -/
def trimChars (cs : List Char) : List Char :=
  ((cs.dropWhile isWS).reverse.dropWhile isWS).reverse

/-- Model of str::trim (inputs here are ASCII). -/
def rustTrim (s : String) : String := String.mk (trimChars s.toList)

/-- Split a character list at every occurrence of a character, keeping empty
pieces; model of str::split on a char pattern, which yields at least one
piece even for the empty input. -/
def splitOnChar (c : Char) : List Char → List (List Char)
  | [] => [[]]
  | x :: xs =>
    let r := splitOnChar c xs
    if x = c then [] :: r
    else (x :: r.headD []) :: r.tail

/-- Drop a single trailing carriage return. -/
def stripCR (l : List Char) : List Char :=
  if l.getLastD ' ' = '\r' then l.dropLast else l

/-- Model of str::lines: split at newline characters, a final line ending is
optional, and a carriage return immediately before a newline is removed. -/
def rustLines (s : String) : List String :=
  let cs := s.toList
  if cs = [] then []
  else
    let parts := splitOnChar '\n' cs
    let body := parts.dropLast.map (fun l => String.mk (stripCR l))
    if parts.getLastD [] = [] then body
    else body ++ [String.mk (parts.getLastD [])]

/-- Split at the first occurrence of a character. -/
def splitOnceList (c : Char) : List Char → Option (List Char × List Char)
  | [] => none
  | x :: xs =>
    if x = c then some ([], xs)
    else (splitOnceList c xs).map (fun p => (x :: p.1, p.2))

/-- Model of str::split_once on a char pattern. -/
def splitOnce (c : Char) (s : String) : Option (String × String) :=
  (splitOnceList c s.toList).map (fun p => (String.mk p.1, String.mk p.2))

/-- Is the first list a prefix of the second. -/
def isPrefixL : List Char → List Char → Bool
  | [], _ => true
  | _ :: _, [] => false
  | p :: ps, x :: xs => p = x && isPrefixL ps xs

/-- Is the first list a contiguous sublist of the second. -/
def isInfixL (pat : List Char) : List Char → Bool
  | [] => isPrefixL pat []
  | x :: xs => isPrefixL pat (x :: xs) || isInfixL pat xs

/-- Model of str::contains with a literal pattern. -/
def containsSub (pat s : String) : Bool := isInfixL pat.toList s.toList

/-- Model of usize::from_str: an optional leading plus sign, then one or more
decimal digits, rejecting values that do not fit in 64 bits. -/
def parseUsize (s : String) : Option Nat :=
  let cs :=
    match s.toList with
    | '+' :: rest => rest
    | other => other
  if cs = [] then none
  else if cs.all Char.isDigit then
    let n := cs.foldl (fun acc c => acc * 10 + (c.toNat - 48)) 0
    if n < 2 ^ 64 then some n else none
  else none

/-- Remove repeated occurrences of the reversed suffix pattern. -/
def trimRevSlashStar : List Char → List Char
  | '*' :: '/' :: rest => trimRevSlashStar rest
  | l => l

/-- Model of str::trim_end_matches with the two-character pattern used by the
active-list parser. -/
def trimEndSlashStar (s : String) : String :=
  String.mk (trimRevSlashStar s.toList.reverse).reverse

/-- One display output (struct Monitor in the source). -/
structure Monitor where
  height : Nat
  width : Nat
  name : String
  refresh : String
  deriving DecidableEq, Repr, Inhabited

/-- Outcome of a fallible computation that may also abort the process with a
panic: Rust Result, plus the possibility of an out-of-bounds indexing panic. -/
inductive PRes (α : Type) where
  | ok (val : α)
  | err (msg : String)
  | panicked
  deriving DecidableEq, Repr

/-- A line recognised as an output-block marker by the chunker:
str::contains("connected"), which also matches "disconnected". -/
def containsMarker (l : String) : Bool := containsSub "connected" l

/-- Inner scanning loop of Monitors::parse_xrandr_monitors: starting from
peak = 1 with peak_line = lines[1], repeatedly test peak_line for the marker
and, while it is absent, reload peak_line from lines[peak] and advance peak;
the loop stops at the marker test or when lines[peak] does not exist.
Structural fuel stands in for the loop; callers supply enough. -/
def innerScanF (lines : List String) : Nat → String → Nat → Nat
  | 0, _, peak => peak
  | fuel + 1, peakLine, peak =>
    if containsMarker peakLine then peak
    else
      match lines[peak]? with
      | none => peak
      | some p => innerScanF lines fuel p (peak + 1)

/-- Outer chunking loop of Monitors::parse_xrandr_monitors: while more than
one line remains, scan for a marker and drain lines[..peak] as a chunk.
Structural fuel stands in for the loop; the initial line count suffices. -/
def chunkLoopF : Nat → List String → List (List String)
  | 0, _ => []
  | fuel + 1, lines =>
    if 1 < lines.length then
      let peak := innerScanF lines lines.length (lines.getD 1 "") 1
      lines.take peak :: chunkLoopF fuel (lines.drop peak)
    else []

/-- Monitors::parse_xrandr_monitors. -/
def parse_xrandr_monitors (xrandrOutputs : String) : List (List String) :=
  let lines := rustLines (rustTrim xrandrOutputs)
  chunkLoopF lines.length lines

/-- Monitor::parse_max_from_chunk; the unchecked chunk[0] and chunk[1]
slice indexings are modelled as panics when out of bounds. -/
def parse_max_from_chunk (chunk : List String) : PRes Monitor :=
  match chunk[0]? with
  | none => .panicked
  | some line0 =>
    match splitOnce ' ' line0 with
    | none => .err "Splitting line for name failed"
    | some (name, _) =>
      match chunk[1]? with
      | none => .panicked
      | some line1 =>
        let maxRes := rustTrim line1
        match splitOnce ' ' maxRes with
        | none => .err "Cant find max_refreshrate and resolution from"
        | some (res, refreshrate) =>
          let primary :=
            match splitOnce ' ' (rustTrim refreshrate) with
            | some (a, _) => a
            | none => rustTrim refreshrate
          match splitOnce 'x' res with
          | none => .err "Expect reslotion to be widthxheight"
          | some (w, h) =>
            match parseUsize w with
            | none => .err "Height and width should be well bounded integers."
            | some width =>
              match parseUsize h with
              | none => .err "Height and width should be well bounded integers."
              | some height =>
                .ok { name := name, width := width, height := height,
                      refresh := primary }

/-- Short-circuiting collection of the per-chunk parses, as performed by the
collect over Result in Monitors::from_cli_text. -/
def collectMonitors : List (List String) → PRes (List Monitor)
  | [] => .ok []
  | c :: cs =>
    match parse_max_from_chunk c with
    | .panicked => .panicked
    | .err e => .err e
    | .ok m =>
      match collectMonitors cs with
      | .ok ms => .ok (m :: ms)
      | .err e => .err e
      | .panicked => .panicked

/-- Monitors::from_cli_text: chunk the text, drop the first chunk, keep the
chunks whose head line does not contain "disconnected", parse each one.
Chunks are never empty, so the vec[0] indexing in the filter is total. -/
def from_cli_text (xrandrOutputs : String) : PRes (List Monitor) :=
  let chunks := parse_xrandr_monitors xrandrOutputs
  collectMonitors
    ((chunks.drop 1).filter (fun c => !(containsSub "disconnected" (c.getD 0 ""))))

/-- Loop body of Monitors::get_biggest. -/
def biggestStep (b m : Monitor) : Monitor :=
  if m.width > b.width then m else b

/-- Monitors::get_biggest; the monitors[0] indexing panics on an empty
collection, modelled as none. -/
def get_biggest (ms : List Monitor) : Option Monitor :=
  match ms with
  | [] => none
  | m0 :: _ => some (ms.foldl biggestStep m0)

/-- Monitor::set_strings. -/
def set_strings (m : Monitor) (isOn : Bool) : List String :=
  if isOn then
    ["--output", m.name, "--mode", toString m.width ++ "x" ++ toString m.height]
  else
    ["--output", m.name, "--off"]

/-- Monitors::get_biggest_command_string. -/
def get_biggest_command_string (ms : List Monitor) : Option (List String) :=
  (get_biggest ms).map
    (fun big => (ms.map (fun m => set_strings m (m.name == big.name))).flatten)

/-- Body of one iteration of Monitors::get_current_from_list, given the
space-split pieces of the line in reverse: the first piece is the name (the
first next_back), the second is the mode token (the second next_back); the
mode token is split at the first x and both sides are parsed as usize after
stripping the literal suffix pattern. -/
def parseActivePieces : List String → PRes Monitor
  | [] => .err "Expected to parse name. Found no whitespace"
  | [_] => .err "Expect mode after name"
  | name :: widthHeight :: _ =>
      match splitOnce 'x' widthHeight with
      | none => .err "Expect to get both width and height from split"
      | some (w, h) =>
        match parseUsize (trimEndSlashStar w) with
        | none => .err "invalid digit found in string"
        | some width =>
          match parseUsize (trimEndSlashStar h) with
          | none => .err "invalid digit found in string"
          | some height =>
            .ok { name := name, height := height, width := width, refresh := "" }

/-- One line of the active-list parse: split on the space character and hand
the reversed pieces (the order the two next_back calls see them in) over. -/
def parseActiveLine (line : String) : PRes Monitor :=
  parseActivePieces (((splitOnChar ' ' line.toList).map String.mk).reverse)

/-- The for loop of Monitors::get_current_from_list over the lines after the
header, pushing each parsed monitor and propagating the first failure. -/
def activeLoop : List String → PRes (List Monitor)
  | [] => .ok []
  | l :: ls =>
    match parseActiveLine l with
    | .ok m =>
      match activeLoop ls with
      | .ok ms => .ok (m :: ms)
      | .err e => .err e
      | .panicked => .panicked
    | .err e => .err e
    | .panicked => .panicked

/-- Monitors::get_current_from_list. -/
def get_current_from_list (listactivemonitors : String) : PRes (List Monitor) :=
  activeLoop ((rustLines listactivemonitors).drop 1)

/-- Observable outcome of one run of fn main for fixed query outputs. -/
inductive MainOutcome where
  | exitOne
  | panicked
  | noChange
  | applied (args : List String)
  deriving DecidableEq, Repr

/-- Model of fn main on the two query texts: parse the capability text, exit
with code 1 on a parse error or an empty collection, parse the active list,
exit with code 1 on a parse error, select the biggest monitor of each list and
emit the apply arguments when the two names differ. -/
def mainModel (capText activeText : String) : MainOutcome :=
  match from_cli_text capText with
  | .panicked => .panicked
  | .err _ => .exitOne
  | .ok possible =>
    if possible.isEmpty then .exitOne
    else
      match get_current_from_list activeText with
      | .panicked => .panicked
      | .err _ => .exitOne
      | .ok current =>
        match get_biggest current with
        | none => .panicked
        | some currentBig =>
          match get_biggest possible with
          | none => .panicked
          | some possibleBig =>
            if currentBig.name ≠ possibleBig.name then
              match get_biggest_command_string possible with
              | some args => .applied args
              | none => .panicked
            else .noChange

/-- Join lines with newline separators (used to state the chunking
round-trip property). -/
def joinWithNl : List String → String
  | [] => ""
  | [l] => l
  | l :: ls => l ++ "\n" ++ joinWithNl ls

/-- Capability text whose two connected headers are separated by one mode
line: the scanner swallows the second header into the first chunk. -/
def capTwoHeaders : String :=
  "Screen\nA connected\n 1920x1080 60.00\nB connected\n 800x600 60.00"

/-- The single monitor parsed out of capTwoHeaders. -/
def monA : Monitor :=
  { height := 1080, width := 1920, name := "A", refresh := "60.00" }

/-- Capability text in which the connected output A forms a chunk of a single
line (its header), because the next line is again a header. -/
def capHeaderNoMode : String :=
  "Screen\nA connected\nB connected\n   640x480 60.00"

/-- Well-formed capability text with one connected monitor. -/
def capOneGood : String := "Screen\nA connected\n   640x480 60.00"

/-- The monitor parsed out of capOneGood. -/
def monA640 : Monitor :=
  { height := 480, width := 640, name := "A", refresh := "60.00" }

/-- Capability text whose connected monitor advertises a zero width. -/
def capZeroWidth : String := "Screen\nA connected\n   0x600   60.00"

/-- The zero-width monitor parsed out of capZeroWidth. -/
def monZeroWidth : Monitor :=
  { height := 600, width := 0, name := "A", refresh := "60.00" }

/-- An active-list text with a header line and no monitor lines. -/
def activeEmpty : String := "Monitors: 0"

/-- Strip any trailing run of non-digit characters; this follows the
specification words "strip any trailing non-numeric suffix", for comparison
with what the code does. -/
def stripTrailingNonNumericSpec (s : String) : String :=
  String.mk ((s.toList.reverse.dropWhile (fun c => !c.isDigit)).reverse)

/-- Whitespace-delimited tokens of a line (empty tokens dropped); this
follows the specification words "whitespace-delimited tokens", for
comparison with what the code does. -/
def wsTokensSpec (s : String) : List String :=
  ((s.toList.splitOnP isWS).filter (fun t => !t.isEmpty)).map String.mk

/-- Does one line of the active-list text fail to parse: fewer than two
space-separated pieces, or a mode token without an x, or a width or height
that does not parse as usize after stripping the literal suffix pattern. -/
def pieceFailCond : List String → Bool
  | [] => true
  | [_] => true
  | _ :: widthHeight :: _ =>
    match splitOnce 'x' widthHeight with
    | none => true
    | some (w, h) =>
      (parseUsize (trimEndSlashStar w)).isNone ||
        (parseUsize (trimEndSlashStar h)).isNone

/-- The failure condition of one active-list line, on the line itself. -/
def lineFailCond (line : String) : Bool :=
  pieceFailCond (((splitOnChar ' ' line.toList).map String.mk).reverse)

/-- Is a result an error (the Err constructor). -/
def PRes.isErr {α : Type} : PRes α → Bool
  | .err _ => true
  | _ => false

/-- A monitor with its refresh field erased, leaving exactly the data that
selection and command construction may depend on. -/
def stripRefresh (m : Monitor) : Monitor :=
  { m with refresh := "" }

/-- First monitor of a width-tied pair. -/
def monTieA : Monitor := { height := 1, width := 5, name := "A", refresh := "" }

/-- Second monitor of a width-tied pair. -/
def monTieB : Monitor := { height := 9, width := 5, name := "B", refresh := "" }

/-- monTieA with a different refresh string. -/
def monTieARefresh : Monitor :=
  { height := 1, width := 5, name := "A", refresh := "60.10" }

/-- monTieB with a different refresh string. -/
def monTieBRefresh : Monitor :=
  { height := 9, width := 5, name := "B", refresh := "59.95*+" }

/-- Active-list text whose mode token carries a trailing star. -/
def activeStarText : String := "h\n0: 1920x1080* A"

/-! Properties of the chunk scanner. -/

/-- The scan position never decreases. -/
theorem innerScanF_ge (lines : List String) :
    ∀ fuel pl peak, peak ≤ innerScanF lines fuel pl peak := by
  intro fuel
  induction fuel with
  | zero => intro pl peak; simp [innerScanF]
  | succ f ih =>
    intro pl peak
    simp only [innerScanF]
    split
    · exact Nat.le_refl _
    · cases hg : lines[peak]? with
      | none => exact Nat.le_refl _
      | some p => exact Nat.le_trans (Nat.le_succ _) (ih p (peak + 1))

/-- The scan position never exceeds the number of lines. -/
theorem innerScanF_le (lines : List String) :
    ∀ fuel pl peak, peak ≤ lines.length →
      innerScanF lines fuel pl peak ≤ lines.length := by
  intro fuel
  induction fuel with
  | zero => intro pl peak h; simpa [innerScanF] using h
  | succ f ih =>
    intro pl peak h
    simp only [innerScanF]
    split
    · exact h
    · cases hg : lines[peak]? with
      | none => exact h
      | some p =>
        have hlt : peak < lines.length := by
          by_contra hge
          rw [List.getElem?_eq_none (Nat.le_of_not_lt hge)] at hg
          cases hg
        exact ih p (peak + 1) hlt

/-- A marker in the currently held line stops the scan at once. -/
theorem innerScanF_marker (lines : List String) (fuel : Nat) (pl : String)
    (peak : Nat) (h : containsMarker pl = true) :
    innerScanF lines fuel pl peak = peak := by
  cases fuel with
  | zero => rfl
  | succ f => simp [innerScanF, h]

/-- No line strictly before the position reached by the scan, minus one,
contains the marker: the scan can only run past marker-free lines, and at
most the line just before the final position carries the marker. -/
theorem innerScanF_interior (lines : List String) :
    ∀ fuel pl peak i, peak ≤ i → i + 1 < innerScanF lines fuel pl peak →
      containsMarker (lines.getD i "") = false := by
  intro fuel
  induction fuel with
  | zero =>
    intro pl peak i hpi hi
    simp only [innerScanF] at hi
    omega
  | succ f ih =>
    intro pl peak i hpi hi
    simp only [innerScanF] at hi
    by_cases hm : containsMarker pl
    · rw [if_pos hm] at hi; omega
    · rw [if_neg hm] at hi
      cases hg : lines[peak]? with
      | none => simp [hg] at hi; omega
      | some p =>
        simp only [hg] at hi
        rcases Nat.eq_or_lt_of_le hpi with heq | hlt
        · subst heq
          by_cases hmp : containsMarker p
          · rw [innerScanF_marker lines f p (peak + 1) hmp] at hi
            omega
          · have hd : lines.getD peak "" = p := by
              simp [List.getD_eq_getElem?_getD, hg]
            rw [hd]
            exact Bool.of_not_eq_true hmp
        · exact ih p (peak + 1) i hlt hi

/-- Reading inside the taken prefix agrees with reading the original list. -/
theorem getD_take_of_lt {α : Type} (l : List α) (n i : Nat) (d : α) (h : i < n) :
    (l.take n).getD i d = l.getD i d := by
  rw [List.getD_eq_getElem?_getD, List.getD_eq_getElem?_getD, List.getElem?_take, if_pos h]

/-- Inside every chunk produced by the chunking loop, no line strictly
between the first and the last line contains the marker. -/
theorem chunkLoopF_interior :
    ∀ fuel lines c, c ∈ chunkLoopF fuel lines →
      ∀ i, 0 < i → i + 1 < c.length → containsMarker (c.getD i "") = false := by
  intro fuel
  induction fuel with
  | zero => intro lines c hc; simp [chunkLoopF] at hc
  | succ f ih =>
    intro lines c hc i h0 hi
    simp only [chunkLoopF] at hc
    split at hc
    · rcases List.mem_cons.1 hc with hc | hc
      · subst hc
        rw [List.length_take] at hi
        have hip : i + 1 < innerScanF lines lines.length (lines.getD 1 "") 1 := by
          omega
        have hgd : (lines.take (innerScanF lines lines.length (lines.getD 1 "") 1)).getD i ""
            = lines.getD i "" :=
          getD_take_of_lt lines _ i "" (by omega)
        rw [hgd]
        exact innerScanF_interior lines lines.length (lines.getD 1 "") 1 i h0 hip
      · exact ih (lines.drop _) c hc i h0 hi
    · simp at hc

/-- The concatenation of all chunks is a prefix of the line list missing at
most the final line. -/
theorem chunkLoopF_flatten :
    ∀ fuel lines, lines.length ≤ fuel →
      ∃ k, (chunkLoopF fuel lines).flatten = lines.take k ∧
        lines.length ≤ k + 1 := by
  intro fuel
  induction fuel with
  | zero =>
    intro lines h
    exact ⟨0, by simp [chunkLoopF], by omega⟩
  | succ f ih =>
    intro lines h
    simp only [chunkLoopF]
    split
    · next hlen =>
      have h1 : 1 ≤ innerScanF lines lines.length (lines.getD 1 "") 1 :=
        innerScanF_ge lines lines.length (lines.getD 1 "") 1
      have h2 : innerScanF lines lines.length (lines.getD 1 "") 1 ≤ lines.length :=
        innerScanF_le lines lines.length (lines.getD 1 "") 1 (by omega)
      obtain ⟨k', hk', hl'⟩ := ih (lines.drop (innerScanF lines lines.length (lines.getD 1 "") 1))
        (by rw [List.length_drop]; omega)
      refine ⟨innerScanF lines lines.length (lines.getD 1 "") 1 + k', ?_, ?_⟩
      · rw [List.flatten_cons, hk', List.take_add]
      · rw [List.length_drop] at hl'; omega
    · next hlen =>
      exact ⟨0, by simp, by omega⟩

/-! Collection lemmas. -/

/-- A successful collection has one monitor per input chunk. -/
theorem collectMonitors_ok_length :
    ∀ l ms, collectMonitors l = .ok ms → ms.length = l.length := by
  intro l
  induction l with
  | nil =>
    intro ms h
    simp only [collectMonitors] at h
    cases h
    rfl
  | cons c cs ih =>
    intro ms h
    simp only [collectMonitors] at h
    cases hp : parse_max_from_chunk c with
    | panicked => simp [hp] at h
    | err e => simp [hp] at h
    | ok m =>
      simp only [hp] at h
      cases hr : collectMonitors cs with
      | panicked => simp [hr] at h
      | err e => simp [hr] at h
      | ok ms' =>
        simp only [hr] at h
        cases h
        simp [ih ms' hr]

/-- Every monitor of a successful collection comes from one of the chunks. -/
theorem collectMonitors_ok_mem :
    ∀ l ms m, collectMonitors l = .ok ms → m ∈ ms →
      ∃ c, c ∈ l ∧ parse_max_from_chunk c = .ok m := by
  intro l
  induction l with
  | nil =>
    intro ms m h hm
    simp only [collectMonitors] at h
    cases h
    cases hm
  | cons c cs ih =>
    intro ms m h hm
    simp only [collectMonitors] at h
    cases hp : parse_max_from_chunk c with
    | panicked => simp [hp] at h
    | err e => simp [hp] at h
    | ok m0 =>
      simp only [hp] at h
      cases hr : collectMonitors cs with
      | panicked => simp [hr] at h
      | err e => simp [hr] at h
      | ok ms' =>
        simp only [hr] at h
        cases h
        rcases List.mem_cons.1 hm with hm | hm
        · exact ⟨c, List.mem_cons_self c cs, hm ▸ hp⟩
        · obtain ⟨c', hc', hp'⟩ := ih ms' m hr hm
          exact ⟨c', List.mem_cons_of_mem c hc', hp'⟩

/-! Claims C1 to C4: the chunking step and the mode-table parse. -/

/-- Claim C1, counterexample: on the input "s\nx\nA connected" the grouping
step produces a single chunk whose third line contains the marker token, so
a marker line does appear in a chunk after that chunk's first line. -/
theorem claim1_counterexample :
    parse_xrandr_monitors "s\nx\nA connected" = [["s", "x", "A connected"]] ∧
    containsMarker "A connected" = true := by
  decide

/-- Claim C1, amended: in every chunk produced by the grouping step, no line
strictly between the chunk's first and last line contains the marker token
"connected"; a marker line can occur as the last line of a chunk, because
the scanner includes the terminating marker line in the current chunk. -/
theorem claim1_chunk_interior (s : String) (c : List String)
    (hc : c ∈ parse_xrandr_monitors s) :
    ∀ i, 0 < i → i + 1 < c.length → containsMarker (c.getD i "") = false := by
  simp only [parse_xrandr_monitors] at hc
  exact chunkLoopF_interior _ _ c hc

/-- Claim C1, witness: the amended statement applied to a concrete text. -/
theorem claim1_witness :
    containsMarker ((["s", "x", "y", "A connected"] : List String).getD 1 "") = false :=
  claim1_chunk_interior "s\nx\ny\nA connected" ["s", "x", "y", "A connected"]
    (by decide) 1 (by decide) (by decide)

/-- Claim C2, counterexample: on the input "a\nA connected" the grouping step
keeps only the chunk ["a"], so re-joining the chunks with newlines yields "a"
and not the trimmed original input: the final line is lost. -/
theorem claim2_counterexample :
    joinWithNl (parse_xrandr_monitors "a\nA connected").flatten = "a" ∧
    rustTrim "a\nA connected" = "a\nA connected" ∧
    joinWithNl (parse_xrandr_monitors "a\nA connected").flatten ≠
      rustTrim "a\nA connected" := by
  decide

/-- Claim C2, amended: the concatenation of all chunks produced by the
grouping step is an in-order prefix of the whitespace-trimmed input's lines
(no line is duplicated or reordered) missing at most the final line, which
is dropped whenever the loop stops with exactly one line left. -/
theorem claim2_prefix (s : String) :
    ∃ k, (parse_xrandr_monitors s).flatten = (rustLines (rustTrim s)).take k ∧
      (rustLines (rustTrim s)).length ≤ k + 1 := by
  simp only [parse_xrandr_monitors]
  exact chunkLoopF_flatten _ _ (Nat.le_refl _)

/-- Claim C3, counterexample: capTwoHeaders has exactly two lines after the
summary line that contain "connected" but not "disconnected", yet the parse
succeeds with exactly one monitor, because the second header line is swallowed
into the first monitor's chunk. -/
theorem claim3_counterexample :
    ((rustLines (rustTrim capTwoHeaders)).drop 1).countP
      (fun l => containsSub "connected" l && !(containsSub "disconnected" l)) = 2 ∧
    from_cli_text capTwoHeaders = .ok [monA] ∧
    ([monA] : List Monitor).length ≠ 2 := by
  decide

/-- Claim C3, amended: a successful mode-table parse returns exactly one
monitor per chunk, after the first chunk is discarded, whose head line does
not contain "disconnected"; this count can be smaller than the number of
connected header lines in the text, since a header can be absorbed into the
preceding chunk. -/
theorem claim3_count (s : String) (ms : List Monitor)
    (h : from_cli_text s = .ok ms) :
    ms.length = (((parse_xrandr_monitors s).drop 1).filter
      (fun c => !(containsSub "disconnected" (c.getD 0 "")))).length := by
  simp only [from_cli_text] at h
  exact collectMonitors_ok_length _ _ h

/-- Claim C3, witness: the amended statement applied to a concrete text. -/
theorem claim3_witness :
    ([monA] : List Monitor).length =
      (((parse_xrandr_monitors capTwoHeaders).drop 1).filter
        (fun c => !(containsSub "disconnected" (c.getD 0 "")))).length :=
  claim3_count capTwoHeaders [monA] (by decide)

/-- Claim C4: on capHeaderNoMode the connected output A forms a single-line
chunk, and the parse does not fail with a reported error and exit code 1 as
the specification requires; instead the unchecked chunk[1] indexing panics,
aborting the whole run (a code bug: every other failure path of this parser
returns a contextualised error). -/
theorem claim4_panic :
    (["A connected"] : List String) ∈ parse_xrandr_monitors capHeaderNoMode ∧
    from_cli_text capHeaderNoMode = .panicked ∧
    mainModel capHeaderNoMode activeEmpty = .panicked ∧
    MainOutcome.panicked ≠ MainOutcome.exitOne := by
  decide

/-! The selector: the fold keeps the first monitor of maximal width. -/

/-- The strict-improvement fold returns the element at the first position of
maximal width in the list extended by the accumulator: every earlier element
is strictly narrower and no element is wider. -/
theorem foldl_biggestStep_spec :
    ∀ (l : List Monitor) (a : Monitor),
      ∃ i, i < (a :: l).length ∧
        l.foldl biggestStep a = (a :: l).getD i default ∧
        (∀ j, j < i →
          ((a :: l).getD j default).width < ((a :: l).getD i default).width) ∧
        (∀ j, j < (a :: l).length →
          ((a :: l).getD j default).width ≤ ((a :: l).getD i default).width) := by
  intro l
  induction l with
  | nil =>
    intro a
    refine ⟨0, by simp, by simp, ?_, ?_⟩
    · intro j hj; omega
    · intro j hj
      have : j = 0 := by simpa using hj
      subst this
      simp
  | cons x l ih =>
    intro a
    rw [List.foldl_cons]
    by_cases hx : x.width > a.width
    · have hstep : biggestStep a x = x := by simp [biggestStep, hx]
      rw [hstep]
      obtain ⟨i, hi, hfold, hbef, hall⟩ := ih x
      have hx0 : x.width ≤ ((x :: l).getD i default).width := by
        simpa using hall 0 (by simp)
      refine ⟨i + 1, by simpa using hi, ?_, ?_, ?_⟩
      · simpa [List.getD_cons_succ] using hfold
      · intro j hj
        cases j with
        | zero =>
          simp only [List.getD_cons_zero, List.getD_cons_succ]
          omega
        | succ j =>
          simp only [List.getD_cons_succ]
          exact hbef j (by omega)
      · intro j hj
        cases j with
        | zero =>
          simp only [List.getD_cons_zero, List.getD_cons_succ]
          omega
        | succ j =>
          simp only [List.getD_cons_succ]
          exact hall j (by simpa using hj)
    · have hstep : biggestStep a x = a := by simp [biggestStep, hx]
      rw [hstep]
      obtain ⟨i, hi, hfold, hbef, hall⟩ := ih a
      cases i with
      | zero =>
        refine ⟨0, by simp, by simpa using hfold, ?_, ?_⟩
        · intro j hj; omega
        · intro j hj
          cases j with
          | zero => simp
          | succ j =>
            cases j with
            | zero =>
              simp only [List.getD_cons_zero, List.getD_cons_succ]
              have ha := hall 0 (by simp)
              simp only [List.getD_cons_zero] at ha
              omega
            | succ j =>
              simp only [List.getD_cons_zero, List.getD_cons_succ]
              have := hall (j + 1) (by simp at hj ⊢; omega)
              simpa using this
      | succ i' =>
        have hbef0 : a.width < ((a :: l).getD (i' + 1) default).width :=
          hbef 0 (by omega)
        refine ⟨i' + 2, ?_, ?_, ?_, ?_⟩
        · simp at hi ⊢; omega
        · simpa [List.getD_cons_succ] using hfold
        · intro j hj
          cases j with
          | zero =>
            simp only [List.getD_cons_zero, List.getD_cons_succ]
            simpa using hbef0
          | succ j =>
            cases j with
            | zero =>
              simp only [List.getD_cons_succ, List.getD_cons_zero]
              simp only [List.getD_cons_succ] at hbef0
              omega
            | succ j =>
              simp only [List.getD_cons_succ]
              have := hbef (j + 1) (by omega)
              simpa using this
        · intro j hj
          cases j with
          | zero =>
            simp only [List.getD_cons_zero, List.getD_cons_succ]
            have := hall 0 (by simp)
            simpa using this
          | succ j =>
            cases j with
            | zero =>
              simp only [List.getD_cons_succ, List.getD_cons_zero]
              simp only [List.getD_cons_succ] at hbef0
              omega
            | succ j =>
              simp only [List.getD_cons_succ]
              have := hall (j + 1) (by simp at hj ⊢; omega)
              simpa using this

/-- Characterisation of Monitors::get_biggest on a non-empty collection:
the returned monitor sits at a position whose earlier entries are all
strictly narrower and which no entry of the collection exceeds. -/
theorem get_biggest_spec (ms : List Monitor) (b : Monitor)
    (h : get_biggest ms = some b) :
    ∃ i, i < ms.length ∧ ms.getD i default = b ∧
      (∀ j, j < i → (ms.getD j default).width < b.width) ∧
      (∀ j, j < ms.length → (ms.getD j default).width ≤ b.width) := by
  cases ms with
  | nil => cases h
  | cons m0 rest =>
    simp only [get_biggest, Option.some_inj] at h
    rw [List.foldl_cons] at h
    have hstep : biggestStep m0 m0 = m0 := by simp [biggestStep]
    rw [hstep] at h
    obtain ⟨i, hi, hfold, hbef, hall⟩ := foldl_biggestStep_spec rest m0
    rw [h] at hfold
    refine ⟨i, hi, hfold.symm, ?_, ?_⟩
    · intro j hj
      have := hbef j hj
      rwa [← hfold] at this
    · intro j hj
      have := hall j hj
      rwa [← hfold] at this

/-- The position singled out by get_biggest_spec is unique. -/
theorem firstmax_unique {ms : List Monitor} {i i' : Nat}
    (hi : i < ms.length) (hi' : i' < ms.length)
    (hbef : ∀ j, j < i → (ms.getD j default).width < (ms.getD i default).width)
    (hall : ∀ j, j < ms.length → (ms.getD j default).width ≤ (ms.getD i default).width)
    (hbef' : ∀ j, j < i' → (ms.getD j default).width < (ms.getD i' default).width)
    (hall' : ∀ j, j < ms.length → (ms.getD j default).width ≤ (ms.getD i' default).width) :
    i = i' := by
  rcases Nat.lt_trichotomy i i' with h | h | h
  · have h1 := hbef' i h
    have h2 := hall i' hi'
    omega
  · exact h
  · have h1 := hbef i' h
    have h2 := hall' i hi
    omega

/-- Claim C5, confirmed: get_biggest returns the first monitor whose width
equals the maximum width of the collection; every earlier monitor is strictly
narrower (a later equal width never replaces it) and no monitor is wider, and
height plays no part in the characterisation. -/
theorem claim5_first_max (ms : List Monitor) (b : Monitor)
    (h : get_biggest ms = some b) :
    ∃ i, i < ms.length ∧ ms.getD i default = b ∧
      (∀ j, j < i → (ms.getD j default).width < b.width) ∧
      (∀ j, j < ms.length → (ms.getD j default).width ≤ b.width) :=
  get_biggest_spec ms b h

/-- Claim C5, witness: on a width-tied pair the first monitor wins. -/
theorem claim5_witness :
    get_biggest [monTieA, monTieB] = some monTieA ∧
    (∃ i, i < ([monTieA, monTieB] : List Monitor).length ∧
      ([monTieA, monTieB] : List Monitor).getD i default = monTieA ∧
      (∀ j, j < i →
        (([monTieA, monTieB] : List Monitor).getD j default).width < monTieA.width) ∧
      (∀ j, j < ([monTieA, monTieB] : List Monitor).length →
        (([monTieA, monTieB] : List Monitor).getD j default).width ≤ monTieA.width)) :=
  ⟨by decide, claim5_first_max [monTieA, monTieB] monTieA (by decide)⟩

/-! Bounds and totality of the per-monitor parses. -/

/-- A successful usize parse yields a value below 2 to the 64. -/
theorem parseUsize_lt (s : String) (n : Nat) (h : parseUsize s = some n) :
    n < 2 ^ 64 := by
  simp only [parseUsize] at h
  split at h
  · cases h
  · split at h
    · split at h
      · cases h; assumption
      · cases h
    · cases h

/-- A monitor successfully parsed from a chunk has usize-bounded width and
height. -/
theorem parse_max_bounds (c : List String) (m : Monitor)
    (h : parse_max_from_chunk c = .ok m) :
    m.width < 2 ^ 64 ∧ m.height < 2 ^ 64 := by
  simp only [parse_max_from_chunk] at h
  cases h0 : getElem? c 0 with
  | none => simp [h0] at h
  | some line0 =>
    simp only [h0] at h
    cases h1 : splitOnce ' ' line0 with
    | none => simp [h1] at h
    | some p1 =>
      obtain ⟨name, rest0⟩ := p1
      simp only [h1] at h
      cases h2 : getElem? c 1 with
      | none => simp [h2] at h
      | some line1 =>
        simp only [h2] at h
        cases h3 : splitOnce ' ' (rustTrim line1) with
        | none => simp [h3] at h
        | some p3 =>
          obtain ⟨res, refreshrate⟩ := p3
          simp only [h3] at h
          cases h4 : splitOnce 'x' res with
          | none => simp [h4] at h
          | some p4 =>
            obtain ⟨w, hh⟩ := p4
            simp only [h4] at h
            cases h5 : parseUsize w with
            | none => simp [h5] at h
            | some width =>
              simp only [h5] at h
              cases h6 : parseUsize hh with
              | none => simp [h6] at h
              | some height =>
                simp only [h6] at h
                cases h
                exact ⟨parseUsize_lt w width h5, parseUsize_lt hh height h6⟩

/-- A monitor successfully parsed from an active-list line has usize-bounded
width and height. -/
theorem parseActivePieces_bounds (ps : List String) (m : Monitor)
    (h : parseActivePieces ps = .ok m) :
    m.width < 2 ^ 64 ∧ m.height < 2 ^ 64 := by
  match ps with
  | [] => simp [parseActivePieces] at h
  | [_] => simp [parseActivePieces] at h
  | name :: widthHeight :: rest2 =>
    simp only [parseActivePieces] at h
    cases h2 : splitOnce 'x' widthHeight with
    | none => simp [h2] at h
    | some p2 =>
      obtain ⟨w, hh⟩ := p2
      simp only [h2] at h
      cases h3 : parseUsize (trimEndSlashStar w) with
      | none => simp [h3] at h
      | some width =>
        simp only [h3] at h
        cases h4 : parseUsize (trimEndSlashStar hh) with
        | none => simp [h4] at h
        | some height =>
          simp only [h4] at h
          cases h
          exact ⟨parseUsize_lt _ width h3, parseUsize_lt _ height h4⟩

/-- Bounds carried over to whole active-list lines. -/
theorem parseActiveLine_bounds (line : String) (m : Monitor)
    (h : parseActiveLine line = .ok m) :
    m.width < 2 ^ 64 ∧ m.height < 2 ^ 64 := by
  simp only [parseActiveLine] at h
  exact parseActivePieces_bounds _ m h

/-- The piece parse of the active-list parser never panics. -/
theorem parseActivePieces_ne_panicked (ps : List String) :
    parseActivePieces ps ≠ .panicked := by
  intro h
  match ps with
  | [] => simp [parseActivePieces] at h
  | [_] => simp [parseActivePieces] at h
  | name :: widthHeight :: rest2 =>
    simp only [parseActivePieces] at h
    cases h2 : splitOnce 'x' widthHeight with
    | none => simp [h2] at h
    | some p2 =>
      obtain ⟨w, hh⟩ := p2
      simp only [h2] at h
      cases h3 : parseUsize (trimEndSlashStar w) with
      | none => simp [h3] at h
      | some width =>
        simp only [h3] at h
        cases h4 : parseUsize (trimEndSlashStar hh) with
        | none => simp [h4] at h
        | some height => simp [h4] at h

/-- The line parse of the active-list parser never panics. -/
theorem parseActiveLine_ne_panicked (line : String) :
    parseActiveLine line ≠ .panicked := by
  simp only [parseActiveLine]
  exact parseActivePieces_ne_panicked _

/-- Every monitor of a successful active-list parse comes from one line. -/
theorem activeLoop_ok_mem :
    ∀ ls ms m, activeLoop ls = .ok ms → m ∈ ms →
      ∃ l, l ∈ ls ∧ parseActiveLine l = .ok m := by
  intro ls
  induction ls with
  | nil =>
    intro ms m h hm
    simp only [activeLoop] at h
    cases h
    cases hm
  | cons l0 rest ih =>
    intro ms m h hm
    simp only [activeLoop] at h
    cases hp : parseActiveLine l0 with
    | panicked => simp [hp] at h
    | err e => simp [hp] at h
    | ok m0 =>
      simp only [hp] at h
      cases hr : activeLoop rest with
      | panicked => simp [hr] at h
      | err e => simp [hr] at h
      | ok ms' =>
        simp only [hr] at h
        cases h
        rcases List.mem_cons.1 hm with hm | hm
        · exact ⟨l0, List.mem_cons_self l0 rest, hm ▸ hp⟩
        · obtain ⟨l', hl', hp'⟩ := ih ms' m hr hm
          exact ⟨l', List.mem_cons_of_mem l0 hl', hp'⟩

/-- One failing line makes the whole active-list parse fail. -/
theorem activeLoop_err_of_mem :
    ∀ ls l, l ∈ ls → (parseActiveLine l).isErr = true →
      (activeLoop ls).isErr = true := by
  intro ls
  induction ls with
  | nil => intro l hl; cases hl
  | cons l0 rest ih =>
    intro l hl herr
    cases hp : parseActiveLine l0 with
    | err e => simp [activeLoop, hp, PRes.isErr]
    | panicked => exact absurd hp (parseActiveLine_ne_panicked l0)
    | ok m =>
      rcases List.mem_cons.1 hl with hle | hl'
      · rw [hle, hp] at herr
        simp [PRes.isErr] at herr
      · have hrest := ih l hl' herr
        simp only [activeLoop, hp]
        cases hr : activeLoop rest with
        | ok ms => rw [hr] at hrest; simp [PRes.isErr] at hrest
        | err e => simp [PRes.isErr]
        | panicked => rw [hr] at hrest; simp [PRes.isErr] at hrest

/-! Claims C6 to C9. -/

/-- Claim C6, counterexample: with a well-formed capability text and an
active-list text that contains only its header line, the run reaches the
selector on an empty active collection and panics: no emptiness check guards
the active-list selection. -/
theorem claim6_counterexample :
    from_cli_text capOneGood = .ok [monA640] ∧
    get_current_from_list activeEmpty = .ok [] ∧
    get_biggest ([] : List Monitor) = none ∧
    mainModel capOneGood activeEmpty = .panicked := by
  decide

/-- Claim C6, amended: the explicit emptiness check guards only the
capability-list selection (an empty capability parse exits with code 1 before
any selector call), while the active-list selection has no such guard: when
the active-list parse succeeds with zero monitors and the capability list is
non-empty, the selector is invoked on an empty collection and its
empty-collection error condition is reached (a panic). -/
theorem claim6_guard :
    (∀ cap act, from_cli_text cap = .ok [] → mainModel cap act = .exitOne) ∧
    (∀ cap act ps, from_cli_text cap = .ok ps → ps ≠ [] →
      get_current_from_list act = .ok [] → mainModel cap act = .panicked) := by
  constructor
  · intro cap act h
    simp [mainModel, h]
  · intro cap act ps h hne hact
    cases ps with
    | nil => exact absurd rfl hne
    | cons p rest => simp [mainModel, h, hact, get_biggest]

/-- Claim C6, witness: the amended statement applied to concrete texts. -/
theorem claim6_witness : mainModel capOneGood activeEmpty = .panicked :=
  claim6_guard.2 capOneGood activeEmpty [monA640] (by decide) (by decide) (by decide)

/-- Claim C7, confirmed: on a collection with pairwise-distinct names the
emitted argument sequence is the in-order concatenation, over the capability
list, of one group per monitor: the select-and-set-mode group (set_strings
with true, carrying the target's own width and height) exactly at the
target's position, and the select-and-off group (set_strings with false) at
every other position. -/
theorem claim7_command_groups (ms : List Monitor) (b : Monitor)
    (h : get_biggest ms = some b) (hnd : (ms.map Monitor.name).Nodup) :
    ∃ i, i < ms.length ∧ ms.getD i default = b ∧
      get_biggest_command_string ms =
        some ((List.ofFn (fun j : Fin ms.length =>
          if j.val = i then set_strings b true
          else set_strings (ms.get j) false)).flatten) := by
  obtain ⟨i, hi, hib, hbef, hall⟩ := get_biggest_spec ms b h
  have hgi : ms.get ⟨i, hi⟩ = b := by
    rw [List.get_eq_getElem, ← List.getD_eq_getElem ms default hi, hib]
  refine ⟨i, hi, hib, ?_⟩
  simp only [get_biggest_command_string, h, Option.map_some']
  refine congrArg some (congrArg List.flatten ?_)
  rw [← List.ofFn_get_eq_map ms (fun m => set_strings m (m.name == b.name))]
  refine congrArg List.ofFn (funext fun j => ?_)
  by_cases hj : j.val = i
  · have hjb : ms.get j = b := by
      have : j = ⟨i, hi⟩ := Fin.ext hj
      rw [this, hgi]
    rw [hjb, if_pos hj]
    simp
  · have hne : (ms.get j).name ≠ b.name := by
      intro heq
      have hinj := List.nodup_iff_injective_get.1 hnd
      have hji : ((ms.map Monitor.name).get ⟨j.val, by simpa using j.isLt⟩)
          = ((ms.map Monitor.name).get ⟨i, by simpa using hi⟩) := by
        simp only [List.get_eq_getElem, List.getElem_map]
        rw [← List.get_eq_getElem ms j]
        · rw [heq, ← hgi]
          rfl
      have := hinj hji
      exact hj (by simpa using congrArg Fin.val this)
    rw [if_neg hj]
    have : ((ms.get j).name == b.name) = false := beq_eq_false_iff_ne.2 hne
    rw [this]

/-- Claim C7, witness: the grouped command string on a concrete pair. -/
theorem claim7_witness :
    get_biggest [monTieA, monTieB] = some monTieA ∧
    (([monTieA, monTieB] : List Monitor).map Monitor.name).Nodup ∧
    (∃ i, i < ([monTieA, monTieB] : List Monitor).length ∧
      ([monTieA, monTieB] : List Monitor).getD i default = monTieA ∧
      get_biggest_command_string [monTieA, monTieB] =
        some ((List.ofFn (fun j : Fin ([monTieA, monTieB] : List Monitor).length =>
          if j.val = i then set_strings monTieA true
          else set_strings (([monTieA, monTieB] : List Monitor).get j) false)).flatten)) :=
  ⟨by decide, by decide,
    claim7_command_groups [monTieA, monTieB] monTieA (by decide) (by decide)⟩

/-- Claim C8, counterexample: the mode-table parser accepts the mode line
"0x600" and constructs a monitor with width equal to zero, so the invariant
width greater than zero after successful construction does not hold. -/
theorem claim8_counterexample :
    from_cli_text capZeroWidth = .ok [monZeroWidth] ∧ monZeroWidth.width = 0 := by
  decide

/-- Claim C8, amended: every monitor successfully constructed by either
parser has usize-valid width and height (below 2 to the 64, zero included:
strict positivity is not enforced), and construction is all-or-nothing (an
ok result is a fully populated record, any failure yields no monitor). -/
theorem claim8_bounds :
    (∀ s ms m, from_cli_text s = .ok ms → m ∈ ms →
      m.width < 2 ^ 64 ∧ m.height < 2 ^ 64) ∧
    (∀ s ms m, get_current_from_list s = .ok ms → m ∈ ms →
      m.width < 2 ^ 64 ∧ m.height < 2 ^ 64) := by
  constructor
  · intro s ms m h hm
    simp only [from_cli_text] at h
    obtain ⟨c, _, hc⟩ := collectMonitors_ok_mem _ ms m h hm
    exact parse_max_bounds c m hc
  · intro s ms m h hm
    simp only [get_current_from_list] at h
    obtain ⟨l, _, hl⟩ := activeLoop_ok_mem _ ms m h hm
    exact parseActiveLine_bounds l m hl

/-- Claim C8, witness: the bounds applied to a concretely parsed monitor. -/
theorem claim8_witness : monZeroWidth.width < 2 ^ 64 ∧ monZeroWidth.height < 2 ^ 64 :=
  claim8_bounds.1 capZeroWidth [monZeroWidth] monZeroWidth (by decide) (by decide)

/-- Claim C9, counterexample: on the line "0: 1920x1080* A" every failure
condition of the claim is absent (three whitespace tokens, an x in the mode
token, and both substrings are integers after stripping any trailing
non-numeric suffix), yet the parse fails: the code strips only the literal
repeated suffix "/*", not arbitrary non-numeric suffixes, so the trailing
star defeats it. -/
theorem claim9_counterexample :
    wsTokensSpec "0: 1920x1080* A" = ["0:", "1920x1080*", "A"] ∧
    containsSub "x" "1920x1080*" = true ∧
    stripTrailingNonNumericSpec "1920" = "1920" ∧
    stripTrailingNonNumericSpec "1080*" = "1080" ∧
    parseUsize (stripTrailingNonNumericSpec "1920") = some 1920 ∧
    parseUsize (stripTrailingNonNumericSpec "1080*") = some 1080 ∧
    (get_current_from_list activeStarText).isErr = true := by
  decide

/-- Claim C9, amended: one active-list line fails to parse exactly when it
has fewer than two pieces under splitting on the space character, or its
second-to-last piece contains no x, or the width or height substring does
not parse as usize after stripping trailing repetitions of the literal
suffix "/*"; and any single failing line makes the whole parse fail. -/
theorem claim9_fail_iff :
    (∀ line, (parseActiveLine line).isErr = lineFailCond line) ∧
    (∀ s l, l ∈ (rustLines s).drop 1 → (parseActiveLine l).isErr = true →
      (get_current_from_list s).isErr = true) := by
  constructor
  · intro line
    simp only [parseActiveLine, lineFailCond]
    generalize ((splitOnChar ' ' line.toList).map String.mk).reverse = ps
    match ps with
    | [] => rfl
    | [_] => rfl
    | name :: widthHeight :: rest =>
      simp only [parseActivePieces, pieceFailCond]
      cases h2 : splitOnce 'x' widthHeight with
      | none => rfl
      | some p2 =>
        obtain ⟨w, hh⟩ := p2
        cases h3 : parseUsize (trimEndSlashStar w) with
        | none => simp [h3, PRes.isErr]
        | some width =>
          cases h4 : parseUsize (trimEndSlashStar hh) with
          | none => simp [h3, h4, PRes.isErr]
          | some height => simp [h3, h4, PRes.isErr]
  · intro s l hl herr
    simp only [get_current_from_list]
    exact activeLoop_err_of_mem _ l hl herr

/-- Claim C9, witness: the abort clause applied to the star-suffixed text. -/
theorem claim9_witness : (get_current_from_list activeStarText).isErr = true :=
  claim9_fail_iff.2 activeStarText "0: 1920x1080* A" (by decide) (by decide)

/-! Claim C10: the refresh field influences nothing observable. -/

/-- set_strings reads only the name, width and height of a monitor. -/
theorem set_strings_congr (m m' : Monitor) (h : stripRefresh m = stripRefresh m')
    (t : Bool) : set_strings m t = set_strings m' t := by
  have hn := congrArg Monitor.name h
  have hw := congrArg Monitor.width h
  have hh := congrArg Monitor.height h
  simp only [stripRefresh] at hn hw hh
  simp [set_strings, hn, hw, hh]

/-- Mapping set_strings over two refresh-equivalent lists with the same
target name gives the same groups. -/
theorem map_set_strings_congr :
    ∀ (ms ms' : List Monitor), ms.map stripRefresh = ms'.map stripRefresh →
      ∀ bn, ms.map (fun m => set_strings m (m.name == bn)) =
        ms'.map (fun m => set_strings m (m.name == bn)) := by
  intro ms
  induction ms with
  | nil =>
    intro ms' h bn
    cases ms' with
    | nil => rfl
    | cons y ys => simp at h
  | cons x xs ih =>
    intro ms' h bn
    cases ms' with
    | nil => simp at h
    | cons y ys =>
      simp only [List.map_cons, List.cons.injEq] at h
      obtain ⟨hxy, hrest⟩ := h
      simp only [List.map_cons, List.cons.injEq]
      refine ⟨?_, ih ys hrest bn⟩
      have hn := congrArg Monitor.name hxy
      simp only [stripRefresh] at hn
      rw [hn]
      exact set_strings_congr x y hxy _

/-- Claim C10, confirmed: two monitor collections that agree except in their
refresh fields select the monitor at the same position and produce identical
apply-argument sequences: get_biggest and get_biggest_command_string never
consult refresh. -/
theorem claim10_refresh_independent (ms ms' : List Monitor)
    (h : ms.map stripRefresh = ms'.map stripRefresh) (hne : ms ≠ []) :
    ∃ i, i < ms.length ∧ get_biggest ms = some (ms.getD i default) ∧
      get_biggest ms' = some (ms'.getD i default) ∧
      get_biggest_command_string ms = get_biggest_command_string ms' := by
  have hlen : ms.length = ms'.length := by
    have := congrArg List.length h
    simpa using this
  have hstrip : ∀ j, stripRefresh (ms.getD j default) =
      stripRefresh (ms'.getD j default) := by
    intro j
    have := congrArg (fun l => l.getD j (stripRefresh default)) h
    simpa [List.getD_map] using this
  have hwidth : ∀ j, (ms.getD j default).width = (ms'.getD j default).width := by
    intro j
    have := congrArg Monitor.width (hstrip j)
    simpa only [stripRefresh] using this
  obtain ⟨b, hb⟩ : ∃ b, get_biggest ms = some b := by
    cases ms with
    | nil => exact absurd rfl hne
    | cons m0 rest => exact ⟨_, rfl⟩
  have hne' : ms' ≠ [] := by
    intro hnil
    rw [hnil] at hlen
    simp only [List.length_nil] at hlen
    exact hne (List.length_eq_zero.1 hlen)
  obtain ⟨b', hb'⟩ : ∃ b', get_biggest ms' = some b' := by
    cases ms' with
    | nil => exact absurd rfl hne'
    | cons m0 rest => exact ⟨_, rfl⟩
  obtain ⟨i, hi, hib, hbef, hall⟩ := get_biggest_spec ms b hb
  obtain ⟨i', hi2, hib', hbef', hall'⟩ := get_biggest_spec ms' b' hb'
  have hbw : (ms.getD i default).width = b.width := congrArg Monitor.width hib
  have hbw' : (ms'.getD i' default).width = b'.width := congrArg Monitor.width hib'
  have hii : i = i' := by
    apply firstmax_unique hi (by omega)
    · intro j hj
      rw [hbw]
      exact hbef j hj
    · intro j hj
      rw [hbw]
      exact hall j hj
    · intro j hj
      rw [hwidth j, hwidth i', hbw']
      exact hbef' j hj
    · intro j hj
      rw [hwidth j, hwidth i', hbw']
      exact hall' j (by omega)
  subst hii
  have hbname : b.name = b'.name := by
    have h1 : stripRefresh b = stripRefresh b' := by
      rw [← hib, ← hib']
      exact hstrip i
    have := congrArg Monitor.name h1
    simpa only [stripRefresh] using this
  refine ⟨i, hi, ?_, ?_, ?_⟩
  · rw [hb, hib]
  · rw [hb', hib']
  · simp only [get_biggest_command_string, hb, hb', Option.map_some']
    rw [hbname]
    exact congrArg some (congrArg List.flatten (map_set_strings_congr ms ms' h b'.name))

/-- Claim C10, witness: two concrete collections differing only in refresh
fields yield the same selection position and the same argument sequence. -/
theorem claim10_witness :
    ∃ i, i < ([monTieA, monTieB] : List Monitor).length ∧
      get_biggest [monTieA, monTieB] =
        some (([monTieA, monTieB] : List Monitor).getD i default) ∧
      get_biggest [monTieARefresh, monTieBRefresh] =
        some (([monTieARefresh, monTieBRefresh] : List Monitor).getD i default) ∧
      get_biggest_command_string [monTieA, monTieB] =
        get_biggest_command_string [monTieARefresh, monTieBRefresh] :=
  claim10_refresh_independent [monTieA, monTieB] [monTieARefresh, monTieBRefresh]
    (by decide) (by decide)
